import Mathlib

/-!
# Verification of the privpay-cli stealth-payment tool

A shallow embedding of the privpay command-line tool (`src/main.rs`) and of
the BIP351-style derivation engine it drives.  The CLI glue (argument
dispatch, `index_range`, the OP_RETURN wrapping heuristic, the JSON/plain
output branches) is translated directly from `src/main.rs`.  The derivation
engine (payment codes, notifications, commitments, per-index keys) is not
part of the visible source; those definitions are modelled from the
specification, as documented on each of them.

Machine integers become `Nat` with explicit reductions; elliptic-curve
points are modelled by their discrete logarithm modulo the curve order, so
that ECDH symmetry and tweak-addition homomorphism are faithfully
represented; fallible operations return `Except` or `Option` exactly where
the source does.
-/

namespace PrivPay

/-- The order of the secp256k1 group, the modulus for all scalar and point
arithmetic in the model. -/
def curveOrder : Nat :=
  115792089237316195423570985008687907852837564279074904382605163141518161494337

/-- Modelled from the spec: a curve point, represented by its discrete
logarithm with respect to the generator, reduced modulo the group order.
This representation makes scalar multiplication and point addition
executable while preserving the homomorphism `(a + b) G = a G + b G` and
ECDH commutativity that the protocol relies on. -/
structure Point where
  val : Nat
deriving DecidableEq, Repr

/-- Scalar-times-generator: the public key of the scalar `k`. -/
def pointOf (k : Nat) : Point := ⟨k % curveOrder⟩

/-- Point addition in the discrete-log representation. -/
def pointAdd (p q : Point) : Point := ⟨(p.val + q.val) % curveOrder⟩

/-- Modelled from the spec: ECDH shared-secret computation between a private
scalar and a public point. -/
def ecdh (k : Nat) (p : Point) : Nat := (k * p.val) % curveOrder

/-- Little-endian base-256 encoding of a natural number into exactly `w`
bytes (the fixed-width binary serialization used for keys and indices). -/
def natToBytes : Nat → Nat → List Nat
  | 0, _ => []
  | w + 1, k => (k % 256) :: natToBytes w (k / 256)

/-- Little-endian base-256 decoding of a byte list. -/
def bytesToNat : List Nat → Nat
  | [] => 0
  | b :: bs => b + 256 * bytesToNat bs

/-! ## Data model -/

/-- The closed address-type enumeration of the CLI (`enum AddressType` in
`src/main.rs`), mirroring `bip351::AddressType`. -/
inductive AddressType where
  | p2pkh
  | p2wpkh
  | p2tr
deriving DecidableEq, Repr

/-- The distinct domain-separation constant of each address type, bound into
the commitment hash (spec §4.5: each type maps to one sub-path constant and
never reuses another type's constant). -/
def typeTag : AddressType → Nat
  | .p2pkh => 0
  | .p2wpkh => 1
  | .p2tr => 2

/-- Decoding of an address-type tag byte; unknown tags are rejected. -/
def tagToType (b : Nat) : Option AddressType :=
  if b = 0 then some .p2pkh
  else if b = 1 then some .p2wpkh
  else if b = 2 then some .p2tr
  else none

/-- The receiver's accepted-address-type set (the CLI's
`HashSet<bip351::AddressType>`), in canonical membership-flag form. -/
structure AddressTypeSet where
  p2pkh : Bool
  p2wpkh : Bool
  p2tr : Bool
deriving DecidableEq, Repr

/-- Set membership for `AddressTypeSet`. -/
def AddressTypeSet.member (s : AddressTypeSet) : AddressType → Bool
  | .p2pkh => s.p2pkh
  | .p2wpkh => s.p2wpkh
  | .p2tr => s.p2tr

/-- Modelled from the spec: a Payment Code is public key material plus the
set of address types the receiver accepts (spec §3); equality is
structural. -/
structure PaymentCode where
  pubkey : Point
  addressTypes : AddressTypeSet
deriving DecidableEq, Repr

/-- Modelled from the spec: the decoded on-chain Notification payload
(spec §3): the sender's contribution public key, the recipient-index tag and
the address-type tag; the 2-byte magic tag is part of the wire form only. -/
structure Notification where
  contribution : Point
  recipientIndex : Nat
  addrType : AddressType
deriving DecidableEq, Repr

/-- Modelled from the spec: a Commitment is the domain-separated shared
secret together with the base public key per-index derivation tweaks are
added to, and the bound address type (spec §3 and §4.3). -/
structure Commitment where
  hsecret : Nat
  basePub : Point
  addrType : AddressType
deriving DecidableEq, Repr

/-- Modelled from the spec: the receiver role — its account private scalar
and accepted address types. -/
structure Recipient where
  scalar : Nat
  accepted : AddressTypeSet
deriving DecidableEq, Repr

/-- Modelled from the spec: the sender role — its account private scalar. -/
structure Sender where
  scalar : Nat
deriving DecidableEq, Repr

/-- The error taxonomy of spec §7 (the CLI's `enum Error` wraps the engine's
errors; only the variants the engine can produce are modelled). -/
inductive Error where
  | derivation
  | decodeFailure
  | input
deriving DecidableEq, Repr

/-- Modelled from the spec: hardened HD derivation of the account private
scalar from the seed at path m/351'/0'/account' (spec §4.1); the protocol
purpose constant 351 and the account index select the branch. -/
def hdMasterScalar (seed : List Nat) (account : Nat) : Nat :=
  bytesToNat seed * 18446744073709551616 + 351 * 4294967296 + account

/-- Modelled from the spec: `Recipient::from_seed` — hardened derivation of
the receiver identity; fails with a `DerivationError` when the account index
is outside the hardened range or the seed fails the basic length sanity
check (spec §4.1). -/
def Recipient.from_seed (seed : List Nat) (account : Nat)
    (accepted : AddressTypeSet) : Except Error Recipient :=
  if seed.length < 16 then .error .derivation
  else if 2147483648 ≤ account then .error .derivation
  else .ok ⟨hdMasterScalar seed account, accepted⟩

/-- Modelled from the spec: `Sender::from_seed` — hardened derivation of the
sender identity, with the same sanity checks. -/
def Sender.from_seed (seed : List Nat) (account : Nat) : Except Error Sender :=
  if seed.length < 16 then .error .derivation
  else if 2147483648 ≤ account then .error .derivation
  else .ok ⟨hdMasterScalar seed account⟩

/-- Modelled from the spec: the receiver's Payment Code wraps the public key
of its account scalar plus the accepted address types (spec §4.1). -/
def Recipient.payment_code (r : Recipient) : PaymentCode :=
  ⟨pointOf r.scalar, r.accepted⟩

/-- Modelled from the spec: the sender's deterministic per-notification
ephemeral scalar, derived from the sender's account key and the recipient
index so that re-running the same call is idempotent (spec §4.3). -/
def senderEphemeral (s : Sender) (recipientIndex : Nat) : Nat :=
  s.scalar * 4294967296 + recipientIndex + 1

/-- Modelled from the spec: the domain-separating hash combining the ECDH
shared secret with the address type and the recipient index (spec §4.3);
injective on the tag/index block below the curve order, which is the
idealization of its collision resistance. -/
def commitHash (secret : Nat) (t : AddressType) (recipientIndex : Nat) : Nat :=
  (secret * 17179869184 + typeTag t * 4294967296 + recipientIndex) % curveOrder

/-! ## Wire encodings -/

/-- Modelled from the spec: the binary Notification payload — the 2-byte
magic tag "PP" (0x50 0x50), the 33-byte contribution key, the 4-byte
recipient-index tag and the address-type tag byte (spec §4.2, §6). -/
def encodeNotificationPayload (ntf : Notification) : List Nat :=
  80 :: 80 :: (natToBytes 33 ntf.contribution.val ++
    (natToBytes 4 ntf.recipientIndex ++ [typeTag ntf.addrType]))

/-- The Bitcoin script push opcode for a data push of the given length, as
emitted by the script builder the CLI calls. -/
def pushOpcode (len : Nat) : List Nat :=
  if len ≤ 75 then [len]
  else if len ≤ 255 then [76, len]
  else if len ≤ 65535 then [77, len % 256, len / 256]
  else [78, len % 256, len / 256 % 256, len / 65536 % 256, len / 16777216 % 256]

/-- `Script::new_op_return(&data)`: OP_RETURN (0x6a) followed by a single
push of the data. -/
def newOpReturn (data : List Nat) : List Nat :=
  106 :: (pushOpcode data.length ++ data)

/-- Modelled from the spec: parse the 40-byte payload of a candidate
notification script (after the script structure has been checked): the
contribution key must be a valid point and the type tag must be known;
anything else is structurally malformed and yields `none`. -/
def parseNotificationPayload (payload : List Nat) : Option Notification :=
  let pv := bytesToNat ((payload.drop 2).take 33)
  if pv < curveOrder then
    match tagToType ((payload.drop 39).headD 256) with
    | some t => some ⟨⟨pv⟩, bytesToNat (((payload.drop 2).drop 33).take 4), t⟩
    | none => none
  else none

/-- Modelled from the spec: `decode(scriptBytes) -> Option<Notification>` —
`none` (not an error) unless the script is an OP_RETURN pushing a 40-byte
payload that starts with the protocol magic tag "PP" and parses (spec
§4.2). -/
def decodeNotificationScript (script : List Nat) : Option Notification :=
  match script with
  | op :: len :: rest =>
    if op = 106 ∧ len = 40 ∧ rest.take 2 = [80, 80] ∧ rest.length = 40 then
      parseNotificationPayload rest
    else none
  | _ => none

/-- The version tag of the Payment Code text encoding (spec §4.1, §6). -/
def paymentCodeVersion : Nat := 1

/-- Packing of the accepted-address-type set into its serialized flag
byte. -/
def flagsToByte (a : AddressTypeSet) : Nat :=
  (cond a.p2pkh 1 0) + (cond a.p2wpkh 2 0) + (cond a.p2tr 4 0)

/-- Unpacking of the serialized flag byte. -/
def byteToFlags (b : Nat) : AddressTypeSet :=
  ⟨b % 2 == 1, b / 2 % 2 == 1, b / 4 % 2 == 1⟩

/-- Modelled from the spec: the checksummed, versioned Payment Code text
encoding (`to_text`, printed by Receiver Code via `to_string`): version tag,
checksum byte, 33 public-key bytes, flag byte (spec §4.1, §6). -/
def PaymentCode.encode (pc : PaymentCode) : List Nat :=
  let payload := natToBytes 33 pc.pubkey.val ++ [flagsToByte pc.addressTypes]
  paymentCodeVersion :: (payload.sum % 256) :: payload

/-- Modelled from the spec: `from_text` / `PaymentCode::from_str` — fails
with a `DecodeError` on an unknown version tag, a truncated payload or a
checksum mismatch, and never silently substitutes defaults (spec §4.1,
§6). -/
def PaymentCode.decode (bs : List Nat) : Except Error PaymentCode :=
  match bs with
  | v :: chk :: payload =>
    if v = paymentCodeVersion then
      if payload.length = 34 then
        if chk = payload.sum % 256 then
          let pv := bytesToNat (payload.take 33)
          if pv < curveOrder then
            .ok ⟨⟨pv⟩, byteToFlags ((payload.drop 33).headD 0)⟩
          else .error .decodeFailure
        else .error .decodeFailure
      else .error .decodeFailure
    else .error .decodeFailure
  | _ => .error .decodeFailure

/-! ## Commitment derivation and per-index keys -/

/-- Modelled from the spec: `Sender::notify` / `deriveAsSender` — ECDH
between the deterministic ephemeral key and the recipient's Payment Code
key, domain-separating hash over (shared secret, address type, recipient
index), and the OP_RETURN notification output alongside the Commitment
(spec §4.3). -/
def Sender.notify (s : Sender) (pc : PaymentCode) (recipientIndex : Nat)
    (t : AddressType) : List Nat × Commitment :=
  let e := senderEphemeral s recipientIndex
  let ntf : Notification := ⟨pointOf e, recipientIndex, t⟩
  let h := commitHash (ecdh e pc.pubkey) t recipientIndex
  (newOpReturn (encodeNotificationPayload ntf),
   ⟨h, pointAdd (pointOf h) pc.pubkey, t⟩)

/-- Modelled from the spec: `Recipient::detect_notification` /
`deriveAsReceiver` — decode the candidate script, reject (with `none`, not
an error) any notification whose declared address type is not accepted,
otherwise perform the mirrored ECDH and the identical domain-separating
hash to reproduce the sender's Commitment (spec §4.3). -/
def Recipient.detect_notification (r : Recipient) (script : List Nat) :
    Option Commitment :=
  match decodeNotificationScript script with
  | none => none
  | some ntf =>
    if r.accepted.member ntf.addrType then
      let h := commitHash (ecdh r.scalar ntf.contribution) ntf.addrType
        ntf.recipientIndex
      some ⟨h, pointAdd (pointOf h) (pointOf r.scalar), ntf.addrType⟩
    else none

/-- Modelled from the spec: the per-index scalar tweak, a deterministic hash
of (Commitment, index) (spec §4.4). -/
def tweakAt (c : Commitment) (i : Nat) : Nat :=
  (c.hsecret * 18446744073709551616 + i) % curveOrder

/-- Modelled from the spec: the index's public key — the tweak added (as a
scalar times the generator) to the Commitment's base public key (spec
§4.4). -/
def derivePub (c : Commitment) (i : Nat) : Point :=
  pointAdd c.basePub (pointOf (tweakAt c i))

/-- Modelled from the spec: the AddressType-specific address encoding of a
public key (spec §4.5, §6); each type contributes a distinct leading tag. -/
def addrEncode (t : AddressType) (p : Point) : List Nat :=
  typeTag t :: natToBytes 33 p.val

/-- Modelled from the spec: `Sender::address` — the public-only per-index
derivation; fails with a `DerivationError` when the scalar tweak collides
with the curve order (spec §4.4). -/
def Sender.address (_s : Sender) (c : Commitment) (i : Nat) :
    Except Error (List Nat) :=
  if tweakAt c i = 0 then .error .derivation
  else .ok (addrEncode c.addrType (derivePub c i))

/-- Modelled from the spec: `Recipient::key_info` — the full per-index
derivation: the public key from the base public key plus the tweak, the
private key from the receiver's scalar plus the same tweak, and the
type-specific address of that public key; the same tweak-collision failure
as the sender side (spec §4.4). -/
def Recipient.key_info (r : Recipient) (c : Commitment) (i : Nat) :
    Except Error (List Nat × Point × Nat) :=
  if tweakAt c i = 0 then .error .derivation
  else
    let p := derivePub c i
    let k := (r.scalar + c.hsecret + tweakAt c i) % curveOrder
    .ok (addrEncode c.addrType p, p, k)

/-! ## CLI layer (translated from src/main.rs) -/

/-- `index_range` (src/main.rs lines 344-349): the inclusive range, collapsed
to the single start index when the end bound is absent or below the start;
represented by its (start, end) endpoint pair. -/
def index_range (first_index : Nat) (last_index : Option Nat) : Nat × Nat :=
  match last_index with
  | some last => if first_index ≤ last then (first_index, last)
    else (first_index, first_index)
  | none => (first_index, first_index)

/-- The list of indices iterated by a `start..=end` endpoint pair. -/
def rangeList (r : Nat × Nat) : List Nat :=
  List.range' r.1 (r.2 + 1 - r.1)

/-- Receiver Decode's input handling (src/main.rs lines 182-186): a
hex-decoded argument starting with the two ASCII bytes "PP" is wrapped as
the data of a new OP_RETURN script; any other byte string is taken verbatim
as a complete script. -/
def scriptFromArg (bytes : List Nat) : List Nat :=
  if [80, 80].isPrefixOf bytes then newOpReturn bytes else bytes

/-- One element of the `addresses` JSON array built by the Receiver Decode
JSON branch (src/main.rs lines 212-224): with `-P` the object carries
address, index, public key and private key; without it only address and
index. -/
inductive JsonRow where
  | short (address : List Nat) (index : Nat)
  | full (address : List Nat) (index : Nat) (publicKey : Point) (privateKey : Nat)
deriving DecidableEq, Repr

/-- One line pushed by the Receiver Decode plain-text branch (src/main.rs
lines 247-251): index and address, plus the key pair when `-P` is given. -/
inductive PlainLine where
  | short (index : Nat) (address : List Nat)
  | full (index : Nat) (address : List Nat) (publicKey : Point) (privateKey : Nat)
deriving DecidableEq, Repr

/-- The Receiver Decode JSON loop (src/main.rs lines 207-225): one
`key_info` call per index in the range, aborting on the first error. -/
def receiverJsonRows (r : Recipient) (c : Commitment) (idxs : List Nat)
    (showPriv : Bool) : Except Error (List JsonRow) :=
  match idxs with
  | [] => .ok []
  | i :: rest =>
    match r.key_info c i with
    | .error e => .error e
    | .ok (a, p, k) =>
      match receiverJsonRows r c rest showPriv with
      | .error e => .error e
      | .ok rows =>
        .ok ((if showPriv then JsonRow.full a i p k else JsonRow.short a i) :: rows)

/-- The Receiver Decode plain-text loop (src/main.rs lines 243-252). -/
def receiverPlainLines (r : Recipient) (c : Commitment) (idxs : List Nat)
    (showPriv : Bool) : Except Error (List PlainLine) :=
  match idxs with
  | [] => .ok []
  | i :: rest =>
    match r.key_info c i with
    | .error e => .error e
    | .ok (a, p, k) =>
      match receiverPlainLines r c rest showPriv with
      | .error e => .error e
      | .ok lines =>
        .ok ((if showPriv then PlainLine.full i a p k else PlainLine.short i a) :: lines)

/-- One element of the `addresses` JSON array built by the Sender Notify
JSON branch (src/main.rs lines 297-300). -/
inductive SenderRow where
  | row (address : List Nat) (index : Nat)
deriving DecidableEq, Repr

/-- One line pushed by the Sender Notify plain-text branch (src/main.rs
lines 325-329): the notification script rendering first, then one line per
derived address. -/
inductive SenderLine where
  | script (bytes : List Nat)
  | addr (index : Nat) (address : List Nat)
deriving DecidableEq, Repr

/-- The Sender Notify JSON loop (src/main.rs lines 294-301): one
`sender.address` call per index. -/
def senderJsonRows (s : Sender) (c : Commitment) (idxs : List Nat) :
    Except Error (List SenderRow) :=
  match idxs with
  | [] => .ok []
  | i :: rest =>
    match s.address c i with
    | .error e => .error e
    | .ok a =>
      match senderJsonRows s c rest with
      | .error e => .error e
      | .ok rows => .ok (SenderRow.row a i :: rows)

/-- The address loop of the Sender Notify plain-text branch (src/main.rs
lines 326-329), with the error propagation of the source's `?`. -/
def senderAddrLines (s : Sender) (c : Commitment) : List Nat →
    Except Error (List SenderLine)
  | [] => .ok []
  | i :: rest =>
    match s.address c i with
    | .error e => .error e
    | .ok a =>
      match senderAddrLines s c rest with
      | .error e => .error e
      | .ok ls => .ok (SenderLine.addr i a :: ls)

/-- The Sender Notify plain-text branch (src/main.rs lines 322-329): the
script line is pushed first, then the per-index address loop runs. -/
def senderPlainLines (s : Sender) (scriptBytes : List Nat) (c : Commitment)
    (idxs : List Nat) : Except Error (List SenderLine) :=
  match senderAddrLines s c idxs with
  | .error e => .error e
  | .ok ls => .ok (SenderLine.script scriptBytes :: ls)

/-- The CLI's `enum Output`, with the structured result of each Receiver
Decode branch in place of the rendered JSON/string (output formatting proper
is out of scope per spec §1). -/
inductive Output where
  | empty
  | jsonReceiver (pc : PaymentCode) (account : Nat) (script payloadSlice : List Nat)
      (rows : List JsonRow)
  | plainLines (lines : List PlainLine)
deriving DecidableEq, Repr

/-- The Receiver Decode pipeline (src/main.rs lines 170-259): build the
script from the argument bytes, derive the recipient, detect the
notification; on a match run the JSON or plain loop over the index range
(the JSON branch also carries the script and its payload byte slice from
index 2 onward); otherwise return the empty output. -/
def receiverDecode (notificationBytes seed : List Nat) (account : Nat)
    (accepted : AddressTypeSet) (startIdx : Nat) (lastIdx : Option Nat)
    (showPriv useJson : Bool) : Except Error Output :=
  let script := scriptFromArg notificationBytes
  match Recipient.from_seed seed account accepted with
  | .error e => .error e
  | .ok recipient =>
    match recipient.detect_notification script with
    | some commitment =>
      let idxs := rangeList (index_range startIdx lastIdx)
      if useJson then
        match receiverJsonRows recipient commitment idxs showPriv with
        | .error e => .error e
        | .ok rows =>
          .ok (Output.jsonReceiver recipient.payment_code account script
            (script.drop 2) rows)
      else
        match receiverPlainLines recipient commitment idxs showPriv with
        | .error e => .error e
        | .ok lines => .ok (Output.plainLines lines)
    | none => .ok Output.empty

/-- The (index, address, optional key pair) data rendered by a JSON row. -/
def jsonRowData : JsonRow → Nat × List Nat × Option (Point × Nat)
  | .short a i => (i, a, none)
  | .full a i p k => (i, a, some (p, k))

/-- The (index, address, optional key pair) data rendered by a plain line. -/
def plainLineData : PlainLine → Nat × List Nat × Option (Point × Nat)
  | .short i a => (i, a, none)
  | .full i a p k => (i, a, some (p, k))

/-- The (index, address) data rendered by a Sender Notify JSON row. -/
def senderRowData : SenderRow → Nat × List Nat
  | .row a i => (i, a)

/-- The (index, address) data of a Sender Notify plain line; the leading
script line renders no derivation data. -/
def senderLineData : SenderLine → Option (Nat × List Nat)
  | .script _ => none
  | .addr i a => some (i, a)

instance {ε α : Type} [DecidableEq ε] [DecidableEq α] : DecidableEq (Except ε α) := fun
  | .error e, .error f =>
    if h : e = f then .isTrue (by rw [h]) else .isFalse (by simp [h])
  | .error _, .ok _ => .isFalse (fun h => Except.noConfusion h)
  | .ok _, .error _ => .isFalse (fun h => Except.noConfusion h)
  | .ok a, .ok b =>
    if h : a = b then .isTrue (by rw [h]) else .isFalse (by simp [h])

/-! ## Concrete example data -/

/-- A concrete 16-byte receiver seed. -/
def exSeedR : List Nat := List.replicate 16 7

/-- A concrete 16-byte sender seed. -/
def exSeedS : List Nat := List.replicate 16 9

/-- A concrete accepted-address-type set: SegwitV0 (p2wpkh) only. -/
def exAcc : AddressTypeSet := ⟨false, true, false⟩

/-- The receiver derived from `exSeedR` at account 0. -/
def exR : Recipient := ⟨hdMasterScalar exSeedR 0, exAcc⟩

/-- The sender derived from `exSeedS` at account 1. -/
def exS : Sender := ⟨hdMasterScalar exSeedS 1⟩

/-- The notification script and Commitment produced by the sender for the
receiver's payment code at recipient index 7, address type p2wpkh. -/
def exPair : List Nat × Commitment :=
  Sender.notify exS (Recipient.payment_code exR) 7 AddressType.p2wpkh

/-- A notification for an address type (p2pkh) the receiver does not
accept. -/
def exPairBad : List Nat × Commitment :=
  Sender.notify exS (Recipient.payment_code exR) 7 AddressType.p2pkh

/-- The receiver's derived key triple at index 0 of the example
commitment. -/
def exTriple : List Nat × Point × Nat :=
  (Recipient.key_info exR exPair.2 0).toOption.getD ([], ⟨0⟩, 0)

/-! ## Helper lemmas -/

theorem natToBytes_length (w k : Nat) : (natToBytes w k).length = w := by
  induction w generalizing k with
  | zero => simp [natToBytes]
  | succ w ih => simp [natToBytes, ih]

theorem bytesToNat_natToBytes (w k : Nat) (h : k < 256 ^ w) :
    bytesToNat (natToBytes w k) = k := by
  induction w generalizing k with
  | zero =>
    have : k = 0 := by simpa using Nat.lt_one_iff.mp (by simpa using h)
    simp [natToBytes, bytesToNat, this]
  | succ w ih =>
    have hq : k / 256 < 256 ^ w := by
      have : k < 256 ^ w * 256 := by
        calc k < 256 ^ (w + 1) := h
        _ = 256 ^ w * 256 := by rw [pow_succ]
      exact (Nat.div_lt_iff_lt_mul (by norm_num)).mpr this
    simp only [natToBytes, bytesToNat, ih (k / 256) hq]
    omega

theorem natToBytes_injOn (w a b : Nat) (ha : a < 256 ^ w) (hb : b < 256 ^ w)
    (h : natToBytes w a = natToBytes w b) : a = b := by
  have := congrArg bytesToNat h
  rwa [bytesToNat_natToBytes w a ha, bytesToNat_natToBytes w b hb] at this

theorem take_append_of_length (l1 l2 : List Nat) (k : Nat) (h : l1.length = k) :
    (l1 ++ l2).take k = l1 := by
  subst h
  induction l1 with
  | nil => simp
  | cons x xs ih => simp [ih]

theorem drop_append_of_length (l1 l2 : List Nat) (k : Nat) (h : l1.length = k) :
    (l1 ++ l2).drop k = l2 := by
  subst h
  induction l1 with
  | nil => simp
  | cons x xs ih => simp [ih]

theorem curveOrder_pos : 0 < curveOrder := by norm_num [curveOrder]

theorem curveOrder_lt_pow : curveOrder < 256 ^ 33 := by norm_num [curveOrder]

theorem pointOf_mod (a : Nat) : pointOf (a % curveOrder) = pointOf a := by
  simp [pointOf, Nat.mod_mod_of_dvd _ dvd_rfl]

theorem pointAdd_pointOf (a b : Nat) :
    pointAdd (pointOf a) (pointOf b) = pointOf (a + b) := by
  simp [pointAdd, pointOf, Nat.add_mod]

theorem ecdh_pointOf_comm (a b : Nat) : ecdh a (pointOf b) = ecdh b (pointOf a) := by
  simp only [ecdh, pointOf]
  conv_lhs => rw [Nat.mul_mod, Nat.mod_mod_of_dvd _ dvd_rfl]
  conv_rhs => rw [Nat.mul_mod, Nat.mod_mod_of_dvd _ dvd_rfl]
  rw [Nat.mul_comm]

theorem add_mod_cancel_of_lt {x a b : Nat} (ha : a < curveOrder) (hb : b < curveOrder)
    (h : (x + a) % curveOrder = (x + b) % curveOrder) : a = b := by
  have h2 : a ≡ b [MOD curveOrder] := Nat.ModEq.add_left_cancel' x h
  rwa [Nat.ModEq, Nat.mod_eq_of_lt ha, Nat.mod_eq_of_lt hb] at h2

theorem from_seed_shape {seed : List Nat} {account : Nat} {acc : AddressTypeSet}
    {r : Recipient} (hr : Recipient.from_seed seed account acc = .ok r) :
    r = ⟨hdMasterScalar seed account, acc⟩ := by
  unfold Recipient.from_seed at hr
  split at hr
  · exact absurd hr (by simp)
  · split at hr
    · exact absurd hr (by simp)
    · injection hr with h
      exact h.symm

theorem tweakAt_lt (c : Commitment) (i : Nat) : tweakAt c i < curveOrder :=
  Nat.mod_lt _ curveOrder_pos

theorem typeTag_lt (t : AddressType) : typeTag t < 3 := by
  cases t <;> simp [typeTag]

theorem typeTag_injective {t1 t2 : AddressType} (h : typeTag t1 = typeTag t2) :
    t1 = t2 := by
  cases t1 <;> cases t2 <;> simp_all [typeTag]

theorem tagToType_typeTag (t : AddressType) : tagToType (typeTag t) = some t := by
  cases t <;> rfl

theorem byteToFlags_flagsToByte (a : AddressTypeSet) :
    byteToFlags (flagsToByte a) = a := by
  obtain ⟨b1, b2, b3⟩ := a
  cases b1 <;> cases b2 <;> cases b3 <;> rfl

theorem pushOpcode_length_pos (k : Nat) : 1 ≤ (pushOpcode k).length := by
  unfold pushOpcode
  split
  · simp
  · split
    · simp
    · split <;> simp

theorem newOpReturn_length (d : List Nat) : 2 ≤ (newOpReturn d).length := by
  have := pushOpcode_length_pos d.length
  simp only [newOpReturn, List.length_cons, List.length_append]
  omega

theorem encodeNotificationPayload_length (ntf : Notification) :
    (encodeNotificationPayload ntf).length = 40 := by
  simp [encodeNotificationPayload, natToBytes_length]

theorem parse_encode_notification (ntf : Notification)
    (hval : ntf.contribution.val < curveOrder)
    (hri : ntf.recipientIndex < 4294967296) :
    parseNotificationPayload (encodeNotificationPayload ntf) = some ntf := by
  obtain ⟨⟨v⟩, ri, t⟩ := ntf
  simp only at hval hri
  have hA : (natToBytes 33 v).length = 33 := natToBytes_length ..
  have hB : (natToBytes 4 ri).length = 4 := natToBytes_length ..
  have h256 : ri < 256 ^ 4 := by
    have : (256 : Nat) ^ 4 = 4294967296 := by norm_num
    omega
  have h1 : (80 :: 80 :: (natToBytes 33 v ++
      (natToBytes 4 ri ++ [typeTag t]))).drop 2 =
      natToBytes 33 v ++ (natToBytes 4 ri ++ [typeTag t]) := rfl
  have h5 : (80 :: 80 :: (natToBytes 33 v ++
      (natToBytes 4 ri ++ [typeTag t]))).drop 39 = [typeTag t] := by
    show (natToBytes 33 v ++ (natToBytes 4 ri ++ [typeTag t])).drop 37 = _
    rw [← List.append_assoc]
    exact drop_append_of_length _ _ 37 (by simp [hA, hB])
  simp only [encodeNotificationPayload, parseNotificationPayload, h1, h5,
    take_append_of_length _ _ 33 hA, drop_append_of_length _ _ 33 hA,
    take_append_of_length _ _ 4 hB, List.headD_cons, tagToType_typeTag,
    bytesToNat_natToBytes 33 v (lt_trans hval curveOrder_lt_pow),
    bytesToNat_natToBytes 4 ri h256]
  rw [if_pos hval]

theorem decode_encode_notification (ntf : Notification)
    (hval : ntf.contribution.val < curveOrder)
    (hri : ntf.recipientIndex < 4294967296) :
    decodeNotificationScript (newOpReturn (encodeNotificationPayload ntf)) =
      some ntf := by
  have hlen : (encodeNotificationPayload ntf).length = 40 :=
    encodeNotificationPayload_length ntf
  have hpush : pushOpcode (encodeNotificationPayload ntf).length = [40] := by
    rw [hlen]; rfl
  have hscript : newOpReturn (encodeNotificationPayload ntf) =
      106 :: 40 :: encodeNotificationPayload ntf := by
    simp [newOpReturn, hpush]
  rw [hscript]
  have htake : (encodeNotificationPayload ntf).take 2 = [80, 80] := by
    simp [encodeNotificationPayload]
  show (if (106 : Nat) = 106 ∧ (40 : Nat) = 40 ∧
      (encodeNotificationPayload ntf).take 2 = [80, 80] ∧
      (encodeNotificationPayload ntf).length = 40 then
      parseNotificationPayload (encodeNotificationPayload ntf) else none) = some ntf
  rw [if_pos ⟨rfl, rfl, htake, hlen⟩]
  exact parse_encode_notification ntf hval hri

theorem decodeNotificationScript_shape {script : List Nat} {ntf : Notification}
    (h : decodeNotificationScript script = some ntf) :
    ∃ rest, script = 106 :: 40 :: rest ∧ rest.length = 40 := by
  match script with
  | [] => simp [decodeNotificationScript] at h
  | [_] => simp [decodeNotificationScript] at h
  | op :: len :: rest =>
    simp only [decodeNotificationScript] at h
    by_cases hc : op = 106 ∧ len = 40 ∧ rest.take 2 = [80, 80] ∧ rest.length = 40
    · obtain ⟨h1, h2, _, h4⟩ := hc
      exact ⟨rest, by rw [h1, h2], h4⟩
    · rw [if_neg hc] at h
      exact absurd h (by simp)

theorem detect_notification_decode {r : Recipient} {script : List Nat}
    {c : Commitment} (h : r.detect_notification script = some c) :
    ∃ ntf, decodeNotificationScript script = some ntf ∧
      r.accepted.member ntf.addrType = true ∧
      c = ⟨commitHash (ecdh r.scalar ntf.contribution) ntf.addrType
            ntf.recipientIndex,
          pointAdd (pointOf (commitHash (ecdh r.scalar ntf.contribution)
            ntf.addrType ntf.recipientIndex)) (pointOf r.scalar),
          ntf.addrType⟩ := by
  cases hd : decodeNotificationScript script with
  | none =>
    simp only [Recipient.detect_notification, hd] at h
    exact absurd h (by simp)
  | some ntf =>
    simp only [Recipient.detect_notification, hd] at h
    by_cases hm : r.accepted.member ntf.addrType = true
    · rw [if_pos hm] at h
      injection h with h
      exact ⟨ntf, rfl, hm, h.symm⟩
    · rw [if_neg hm] at h
      exact absurd h (by simp)

theorem detect_notification_basePub {r : Recipient} {script : List Nat}
    {c : Commitment} (h : r.detect_notification script = some c) :
    c.basePub = pointAdd (pointOf c.hsecret) (pointOf r.scalar) := by
  obtain ⟨ntf, _, _, hc⟩ := detect_notification_decode h
  rw [hc]

theorem key_info_correct_of_basePub {r : Recipient} {c : Commitment} {i : Nat}
    {a : List Nat} {p : Point} {k : Nat}
    (hb : c.basePub = pointAdd (pointOf c.hsecret) (pointOf r.scalar))
    (hk : r.key_info c i = .ok (a, p, k)) :
    pointOf k = p ∧ a = addrEncode c.addrType p := by
  unfold Recipient.key_info at hk
  by_cases h0 : tweakAt c i = 0
  · rw [if_pos h0] at hk
    exact absurd hk (by simp)
  · rw [if_neg h0] at hk
    injection hk with hk
    obtain ⟨ha, hp, hkk⟩ : a = addrEncode c.addrType (derivePub c i) ∧
        p = derivePub c i ∧
        k = (r.scalar + c.hsecret + tweakAt c i) % curveOrder := by
      refine ⟨congrArg Prod.fst hk.symm, ?_, ?_⟩
      · exact congrArg (fun x => x.2.1) hk.symm
      · exact congrArg (fun x => x.2.2) hk.symm
    subst ha hp hkk
    refine ⟨?_, rfl⟩
    rw [pointOf_mod, derivePub, hb, pointAdd_pointOf, pointAdd_pointOf,
      ← pointOf_mod (c.hsecret + r.scalar + tweakAt c i)]
    rw [← pointOf_mod (r.scalar + c.hsecret + tweakAt c i)]
    congr 1
    congr 1
    ring

theorem paymentCode_roundtrip_aux (pc : PaymentCode)
    (h : pc.pubkey.val < curveOrder) :
    PaymentCode.decode (PaymentCode.encode pc) = .ok pc := by
  have hA : (natToBytes 33 pc.pubkey.val).length = 33 := natToBytes_length ..
  have hlen : (natToBytes 33 pc.pubkey.val ++
      [flagsToByte pc.addressTypes]).length = 34 := by simp [hA]
  simp only [PaymentCode.encode, PaymentCode.decode, hlen,
    take_append_of_length _ _ 33 hA, drop_append_of_length _ _ 33 hA,
    bytesToNat_natToBytes 33 pc.pubkey.val (lt_trans h curveOrder_lt_pow),
    List.headD_cons, byteToFlags_flagsToByte, h, if_true]

/-! ## Claims -/

/-- Claim C5: for every start index s and optional end index e,
`index_range s e` yields exactly the inclusive range s..=e when e is present
and e >= s, collapses to the single index s when e is absent or e < s, and
never yields an empty or reversed range. -/
theorem index_range_defaulting (s : Nat) (eOpt : Option Nat) :
    (∀ e, eOpt = some e → s ≤ e → index_range s eOpt = (s, e)) ∧
    ((∀ e, eOpt = some e → e < s) → index_range s eOpt = (s, s)) ∧
    (index_range s eOpt).1 = s ∧
    (index_range s eOpt).1 ≤ (index_range s eOpt).2 ∧
    rangeList (index_range s eOpt) ≠ [] := by
  have hne : ∀ a b : Nat, a ≤ b → rangeList (a, b) ≠ [] := by
    intro a b hab
    simp only [rangeList, ne_eq, List.range'_eq_nil]
    omega
  cases eOpt with
  | none =>
    refine ⟨fun e he => absurd he (by simp), fun _ => rfl, rfl, le_refl s,
      hne s s (le_refl s)⟩
  | some e =>
    by_cases hle : s ≤ e
    · refine ⟨fun e2 he2 _ => ?_, fun hlt => absurd hle (by simpa using hlt e rfl),
        ?_, ?_, ?_⟩
      · injection he2 with he2
        subst he2
        simp [index_range, hle]
      · simp [index_range, hle]
      · simp [index_range, hle]
      · simpa [index_range, hle] using hne s e hle
    · refine ⟨fun e2 he2 hle2 => ?_, fun _ => ?_, ?_, ?_, ?_⟩
      · injection he2 with he2
        subst he2
        exact absurd hle2 hle
      · simp [index_range, hle]
      · simp [index_range, hle]
      · simp [index_range, hle]
      · simpa [index_range, hle] using hne s s (le_refl s)

/-- Claim C5 witness: present end bound at or above the start is kept;
absent or lower end bound collapses to the single start index. -/
theorem index_range_defaulting_witness :
    index_range 3 (some 7) = (3, 7) ∧ index_range 3 (some 1) = (3, 3) ∧
    index_range 3 none = (3, 3) :=
  ⟨(index_range_defaulting 3 (some 7)).1 7 rfl (by norm_num),
   (index_range_defaulting 3 (some 1)).2.1
     (fun e he => by injection he with he; omega),
   (index_range_defaulting 3 none).2.1 (fun e he => by simp at he)⟩

/-- Claim C8: the hex-decoded Receiver Decode argument is wrapped as the
data of a new OP_RETURN script exactly when its bytes begin with the two
ASCII bytes "PP" (0x50 0x50); otherwise the bytes are taken verbatim as a
complete script. -/
theorem notification_arg_wrapping (bytes : List Nat) :
    ([80, 80].isPrefixOf bytes = true → scriptFromArg bytes = newOpReturn bytes) ∧
    ([80, 80].isPrefixOf bytes = false → scriptFromArg bytes = bytes) := by
  constructor
  · intro h
    simp [scriptFromArg, h]
  · intro h
    simp [scriptFromArg, h]

/-- Claim C8 witness: a bare notification payload (magic-tag prefix) is
wrapped into an OP_RETURN script; a full script byte string is taken
verbatim. -/
theorem notification_arg_wrapping_witness :
    scriptFromArg [80, 80, 1] = newOpReturn [80, 80, 1] ∧
    scriptFromArg [106, 2, 80, 80] = [106, 2, 80, 80] :=
  ⟨(notification_arg_wrapping [80, 80, 1]).1 (by decide),
   (notification_arg_wrapping [106, 2, 80, 80]).2 (by decide)⟩

/-- Claim C10: whenever `detect_notification` returns a Commitment or
`notify` produces a notification output, the script is at least 2 bytes
long, so the payload slice from byte index 2 onward taken by the JSON
branches is in bounds. -/
theorem payload_slice_in_bounds (r : Recipient) (script : List Nat)
    (c : Commitment) (sd : Sender) (pc : PaymentCode) (ri : Nat)
    (t : AddressType) (s2 : List Nat) (c2 : Commitment) :
    (r.detect_notification script = some c → 2 ≤ script.length) ∧
    (Sender.notify sd pc ri t = (s2, c2) → 2 ≤ s2.length) := by
  constructor
  · intro h
    obtain ⟨ntf, hd, _, _⟩ := detect_notification_decode h
    obtain ⟨rest, hs, _⟩ := decodeNotificationScript_shape hd
    rw [hs]
    simp
  · intro h
    have hs2 : s2 = newOpReturn (encodeNotificationPayload
        ⟨pointOf (senderEphemeral sd ri), ri, t⟩) := by
      have := congrArg Prod.fst h
      simpa [Sender.notify] using this.symm
    rw [hs2]
    exact newOpReturn_length _

/-- Claim C10 witness: the example detected notification script and the
example sender notification script are both at least 2 bytes long. -/
theorem payload_slice_in_bounds_witness :
    2 ≤ exPair.1.length ∧ 2 ≤ exPair.1.length :=
  ⟨(payload_slice_in_bounds exR exPair.1 exPair.2 exS (Recipient.payment_code exR)
      7 AddressType.p2wpkh exPair.1 exPair.2).1 (by decide),
   (payload_slice_in_bounds exR exPair.1 exPair.2 exS (Recipient.payment_code exR)
      7 AddressType.p2wpkh exPair.1 exPair.2).2 rfl⟩

/-- Claim C2: decoding the text encoding of a Payment Code yields a Payment
Code equal to the original; in particular the payment code printed by
Receiver Code and parsed back by the sender recovers the same value. -/
theorem payment_code_roundtrip (pc : PaymentCode)
    (h : pc.pubkey.val < curveOrder) :
    PaymentCode.decode (PaymentCode.encode pc) = .ok pc ∧
    ∀ seed account acc r, Recipient.from_seed seed account acc = .ok r →
      PaymentCode.decode (PaymentCode.encode (Recipient.payment_code r)) =
        .ok (Recipient.payment_code r) := by
  refine ⟨paymentCode_roundtrip_aux pc h, fun seed account acc r hr => ?_⟩
  apply paymentCode_roundtrip_aux
  exact Nat.mod_lt _ curveOrder_pos

/-- Claim C2 witness: the example receiver's generated payment code round
trips through the text encoding. -/
theorem payment_code_roundtrip_witness :
    PaymentCode.decode (PaymentCode.encode (Recipient.payment_code exR)) =
      .ok (Recipient.payment_code exR) :=
  (payment_code_roundtrip (Recipient.payment_code exR) (by decide)).1

/-- Claim C3: a notification whose declared address type is not in the
receiver's accepted set yields no match — `detect_notification` returns
`none` and Receiver Decode produces the empty output, never a computed
Commitment. -/
theorem acceptance_filtering (bytes seed : List Nat) (account : Nat)
    (acc : AddressTypeSet) (s0 : Nat) (l0 : Option Nat) (sp uj : Bool)
    (r : Recipient) (ntf : Notification)
    (hr : Recipient.from_seed seed account acc = .ok r)
    (hd : decodeNotificationScript (scriptFromArg bytes) = some ntf)
    (ht : acc.member ntf.addrType = false) :
    r.detect_notification (scriptFromArg bytes) = none ∧
    receiverDecode bytes seed account acc s0 l0 sp uj = .ok Output.empty := by
  have hacc : r.accepted = acc := by rw [from_seed_shape hr]
  have hdet : r.detect_notification (scriptFromArg bytes) = none := by
    simp only [Recipient.detect_notification, hd, hacc, ht]
    simp
  refine ⟨hdet, ?_⟩
  simp only [receiverDecode, hr, hdet]

/-- Claim C3 witness: the example p2pkh notification against the
p2wpkh-only receiver is rejected with no match and the empty output. -/
theorem acceptance_filtering_witness :
    Recipient.detect_notification exR (scriptFromArg exPairBad.1) = none ∧
    receiverDecode exPairBad.1 exSeedR 0 exAcc 0 none false false =
      .ok Output.empty :=
  acceptance_filtering exPairBad.1 exSeedR 0 exAcc 0 none false false exR
    ⟨pointOf (senderEphemeral exS 7), 7, AddressType.p2pkh⟩
    rfl (by decide) (by decide)

/-- Claim C4: a script that does not start with the protocol magic tag, or
is otherwise structurally malformed, makes notification decoding return
`none` rather than an error, and Receiver Decode completes successfully
with the empty output. -/
theorem malformed_notification_decode (bytes seed : List Nat) (account : Nat)
    (acc : AddressTypeSet) (s0 : Nat) (l0 : Option Nat) (sp uj : Bool)
    (r : Recipient)
    (hr : Recipient.from_seed seed account acc = .ok r)
    (hd : decodeNotificationScript (scriptFromArg bytes) = none) :
    (∀ s : List Nat, s.take 4 ≠ [106, 40, 80, 80] →
      decodeNotificationScript s = none) ∧
    r.detect_notification (scriptFromArg bytes) = none ∧
    receiverDecode bytes seed account acc s0 l0 sp uj = .ok Output.empty := by
  have hmagic : ∀ s : List Nat, s.take 4 ≠ [106, 40, 80, 80] →
      decodeNotificationScript s = none := by
    intro s hs
    match s with
    | [] => rfl
    | [_] => rfl
    | op :: len :: rest =>
      simp only [decodeNotificationScript]
      rw [if_neg]
      intro ⟨h1, h2, h3, _⟩
      apply hs
      subst h1 h2
      simp [List.take, h3]
  have hdet : r.detect_notification (scriptFromArg bytes) = none := by
    simp only [Recipient.detect_notification, hd]
  refine ⟨hmagic, hdet, ?_⟩
  simp only [receiverDecode, hr, hdet]

/-- Claim C4 witness: a short non-notification byte string decodes to
nothing and Receiver Decode returns the empty output for it. -/
theorem malformed_notification_decode_witness :
    decodeNotificationScript [1, 2, 3] = none ∧
    receiverDecode [1, 2, 3] exSeedR 0 exAcc 0 none false false =
      .ok Output.empty :=
  ⟨(malformed_notification_decode [1, 2, 3] exSeedR 0 exAcc 0 none false false
      exR rfl (by decide)).1 [1, 2, 3] (by decide),
   (malformed_notification_decode [1, 2, 3] exSeedR 0 exAcc 0 none false false
      exR rfl (by decide)).2.2⟩

/-- Claim C6: for a fixed Commitment, the derived public keys (and hence
addresses) at two distinct indices differ, and commitments built from the
same underlying ECDH secret differ across distinct (address type, recipient
index) pairs. -/
theorem domain_separation (c : Commitment) (i j : Nat)
    (hi : i < 18446744073709551616) (hj : j < 18446744073709551616)
    (hij : i ≠ j) (s ri rj : Nat) (t1 t2 : AddressType)
    (hri : ri < 4294967296) (hrj : rj < 4294967296)
    (hpair : (t1, ri) ≠ (t2, rj)) :
    derivePub c i ≠ derivePub c j ∧
    addrEncode c.addrType (derivePub c i) ≠ addrEncode c.addrType (derivePub c j) ∧
    commitHash s t1 ri ≠ commitHash s t2 rj := by
  have h64 : (18446744073709551616 : Nat) < curveOrder := by
    norm_num [curveOrder]
  have htw : tweakAt c i ≠ tweakAt c j := by
    intro h
    apply hij
    exact add_mod_cancel_of_lt (lt_trans hi h64) (lt_trans hj h64) h
  have hpub : derivePub c i ≠ derivePub c j := by
    intro h
    apply htw
    have hval : (c.basePub.val + tweakAt c i) % curveOrder =
        (c.basePub.val + tweakAt c j) % curveOrder := by
      have := congrArg Point.val h
      simpa [derivePub, pointAdd, pointOf,
        Nat.mod_eq_of_lt (tweakAt_lt c i), Nat.mod_eq_of_lt (tweakAt_lt c j)]
        using this
    exact add_mod_cancel_of_lt (tweakAt_lt c i) (tweakAt_lt c j) hval
  refine ⟨hpub, ?_, ?_⟩
  · intro h
    apply hpub
    have htail := congrArg List.tail h
    simp only [addrEncode, List.tail_cons] at htail
    have hi33 : (derivePub c i).val < 256 ^ 33 :=
      lt_trans (Nat.mod_lt _ curveOrder_pos) curveOrder_lt_pow
    have hj33 : (derivePub c j).val < 256 ^ 33 :=
      lt_trans (Nat.mod_lt _ curveOrder_pos) curveOrder_lt_pow
    have hv : (derivePub c i).val = (derivePub c j).val :=
      natToBytes_injOn 33 _ _ hi33 hj33 htail
    calc derivePub c i = ⟨(derivePub c i).val⟩ := rfl
      _ = ⟨(derivePub c j).val⟩ := by rw [hv]
      _ = derivePub c j := rfl
  · intro h
    have h34 : (17179869184 : Nat) < curveOrder := by norm_num [curveOrder]
    have ha : typeTag t1 * 4294967296 + ri < curveOrder := by
      have := typeTag_lt t1
      omega
    have hb : typeTag t2 * 4294967296 + rj < curveOrder := by
      have := typeTag_lt t2
      omega
    have hsum : typeTag t1 * 4294967296 + ri = typeTag t2 * 4294967296 + rj := by
      apply add_mod_cancel_of_lt ha hb
      have h1 : s * 17179869184 + (typeTag t1 * 4294967296 + ri) =
          s * 17179869184 + typeTag t1 * 4294967296 + ri := by ring
      have h2 : s * 17179869184 + (typeTag t2 * 4294967296 + rj) =
          s * 17179869184 + typeTag t2 * 4294967296 + rj := by ring
      rw [h1, h2]
      exact h
    have htag : typeTag t1 = typeTag t2 := by omega
    have hidx : ri = rj := by omega
    exact hpair (by rw [typeTag_injective htag, hidx])

/-- Claim C6 witness: at a concrete commitment, indices 0 and 1 give
distinct keys and addresses, and commitments for the same ECDH secret at
recipient indices 0 and 1 differ. -/
theorem domain_separation_witness :
    derivePub ⟨5, ⟨7⟩, AddressType.p2wpkh⟩ 0 ≠
      derivePub ⟨5, ⟨7⟩, AddressType.p2wpkh⟩ 1 ∧
    addrEncode AddressType.p2wpkh (derivePub ⟨5, ⟨7⟩, AddressType.p2wpkh⟩ 0) ≠
      addrEncode AddressType.p2wpkh (derivePub ⟨5, ⟨7⟩, AddressType.p2wpkh⟩ 1) ∧
    commitHash 5 AddressType.p2pkh 0 ≠ commitHash 5 AddressType.p2pkh 1 :=
  domain_separation ⟨5, ⟨7⟩, AddressType.p2wpkh⟩ 0 1 (by norm_num) (by norm_num)
    (by norm_num) 5 0 1 AddressType.p2pkh AddressType.p2pkh (by norm_num)
    (by norm_num) (by simp)

/-- Claim C7: at every index where the receiver's `key_info` succeeds on a
detected Commitment, the returned private key's public image is exactly the
returned public key, and the returned address is the AddressType-specific
encoding of that public key. -/
theorem private_key_correctness (r : Recipient) (script : List Nat)
    (c : Commitment) (i : Nat) (a : List Nat) (p : Point) (k : Nat)
    (hc : r.detect_notification script = some c)
    (hk : r.key_info c i = .ok (a, p, k)) :
    pointOf k = p ∧ a = addrEncode c.addrType p :=
  key_info_correct_of_basePub (detect_notification_basePub hc) hk

/-- Claim C7 witness: at index 0 of the example detected commitment, the
returned private key maps to the returned public key and the address is its
encoding. -/
theorem private_key_correctness_witness :
    pointOf exTriple.2.2 = exTriple.2.1 ∧
    exTriple.1 = addrEncode exPair.2.addrType exTriple.2.1 :=
  private_key_correctness exR exPair.1 exPair.2 0 exTriple.1 exTriple.2.1
    exTriple.2.2 (by decide) (by decide)

theorem receiver_rows_equiv (r : Recipient) (c : Commitment) (idxs : List Nat)
    (sp : Bool) :
    (receiverJsonRows r c idxs sp).map (fun rows => rows.map jsonRowData) =
      (receiverPlainLines r c idxs sp).map (fun ls => ls.map plainLineData) := by
  induction idxs with
  | nil => rfl
  | cons i rest ih =>
    simp only [receiverJsonRows, receiverPlainLines]
    cases hk : r.key_info c i with
    | error e => rfl
    | ok triple =>
      obtain ⟨a, p, k⟩ := triple
      cases hJ : receiverJsonRows r c rest sp with
      | error e =>
        cases hP : receiverPlainLines r c rest sp with
        | error e2 =>
          rw [hJ, hP] at ih
          simp only [Except.map] at ih
          injection ih with ih
          subst ih
          rfl
        | ok ls =>
          rw [hJ, hP] at ih
          simp [Except.map] at ih
      | ok rows =>
        cases hP : receiverPlainLines r c rest sp with
        | error e2 =>
          rw [hJ, hP] at ih
          simp [Except.map] at ih
        | ok ls =>
          rw [hJ, hP] at ih
          simp only [Except.map] at ih
          injection ih with ih
          simp only [Except.map, List.map_cons, ih]
          cases sp <;> simp [jsonRowData, plainLineData]

theorem sender_rows_equiv_aux (sd : Sender) (c : Commitment) (idxs : List Nat) :
    (senderJsonRows sd c idxs).map (fun rows => rows.map senderRowData) =
      (senderAddrLines sd c idxs).map (fun ls => ls.filterMap senderLineData) := by
  induction idxs with
  | nil => rfl
  | cons i rest ih =>
    simp only [senderJsonRows, senderAddrLines]
    cases hk : sd.address c i with
    | error e => rfl
    | ok a =>
      cases hJ : senderJsonRows sd c rest with
      | error e =>
        cases hP : senderAddrLines sd c rest with
        | error e2 =>
          rw [hJ, hP] at ih
          simp only [Except.map] at ih
          injection ih with ih
          subst ih
          rfl
        | ok ls =>
          rw [hJ, hP] at ih
          simp [Except.map] at ih
      | ok rows =>
        cases hP : senderAddrLines sd c rest with
        | error e2 =>
          rw [hJ, hP] at ih
          simp [Except.map] at ih
        | ok ls =>
          rw [hJ, hP] at ih
          simp only [Except.map] at ih
          injection ih with ih
          simp only [Except.map, List.map_cons, List.filterMap_cons, ih]
          simp [senderRowData, senderLineData]

/-- Claim C9: for identical inputs, the JSON and plain-text branches of
Receiver Decode and Sender Notify iterate the same index range with the
same derivation calls, so the sequences of (index, address, keys) values
they render are identical; the JSON flag changes only the formatting. -/
theorem json_plain_equivalence (r : Recipient) (c : Commitment)
    (idxs : List Nat) (sp : Bool) (sd : Sender) (scriptBytes : List Nat) :
    (receiverJsonRows r c idxs sp).map (fun rows => rows.map jsonRowData) =
      (receiverPlainLines r c idxs sp).map (fun ls => ls.map plainLineData) ∧
    (senderJsonRows sd c idxs).map (fun rows => rows.map senderRowData) =
      (senderPlainLines sd scriptBytes c idxs).map
        (fun ls => ls.filterMap senderLineData) := by
  refine ⟨receiver_rows_equiv r c idxs sp, ?_⟩
  have haux := sender_rows_equiv_aux sd c idxs
  simp only [senderPlainLines]
  cases hA : senderAddrLines sd c idxs with
  | error e =>
    rw [hA] at haux
    simpa [Except.map] using haux
  | ok ls =>
    rw [hA] at haux
    simp only [Except.map] at haux ⊢
    rw [haux]
    simp [senderLineData, List.filterMap_cons]

/-- Claim C1: for a fixed Payment Code, recipient index and address type
accepted by the receiver, the Commitment computed by the sender's notify and
the one the receiver independently computes from the notification script
are bit-identical; the derived address sequence (including the failure
behaviour at each index) is identical on both sides, and the private key
the receiver additionally obtains matches the derived public key. -/
theorem sender_receiver_symmetry (seedR seedS : List Nat) (accR accS ri : Nat)
    (t : AddressType) (acc : AddressTypeSet) (r : Recipient) (sd : Sender)
    (script : List Nat) (c : Commitment)
    (hr : Recipient.from_seed seedR accR acc = .ok r)
    (_hs : Sender.from_seed seedS accS = .ok sd)
    (hri : ri < 4294967296)
    (ht : acc.member t = true)
    (hn : Sender.notify sd (Recipient.payment_code r) ri t = (script, c)) :
    r.detect_notification script = some c ∧
    ∀ i, sd.address c i = (r.key_info c i).map (fun x => x.1) ∧
      ∀ a p k, r.key_info c i = .ok (a, p, k) → pointOf k = p := by
  have hacc : r.accepted = acc := by rw [from_seed_shape hr]
  have hscript : script = newOpReturn (encodeNotificationPayload
      ⟨pointOf (senderEphemeral sd ri), ri, t⟩) := by
    have := congrArg Prod.fst hn
    simpa [Sender.notify] using this.symm
  have hcc : c = ⟨commitHash (ecdh (senderEphemeral sd ri) (pointOf r.scalar)) t ri,
      pointAdd (pointOf (commitHash (ecdh (senderEphemeral sd ri)
        (pointOf r.scalar)) t ri)) (pointOf r.scalar), t⟩ := by
    have := congrArg Prod.snd hn
    simpa [Sender.notify, Recipient.payment_code] using this.symm
  have hdec : decodeNotificationScript script =
      some ⟨pointOf (senderEphemeral sd ri), ri, t⟩ := by
    rw [hscript]
    exact decode_encode_notification _ (Nat.mod_lt _ curveOrder_pos) hri
  have hdet : r.detect_notification script = some c := by
    simp only [Recipient.detect_notification, hdec, hacc, ht, if_true]
    rw [hcc, ecdh_pointOf_comm r.scalar (senderEphemeral sd ri)]
  have hbase : c.basePub = pointAdd (pointOf c.hsecret) (pointOf r.scalar) := by
    rw [hcc]
  refine ⟨hdet, fun i => ⟨?_, fun a p k hk => (key_info_correct_of_basePub hbase hk).1⟩⟩
  by_cases h0 : tweakAt c i = 0
  · simp [Sender.address, Recipient.key_info, h0, Except.map]
  · simp [Sender.address, Recipient.key_info, h0, Except.map]

/-- Claim C1 witness: on the concrete example the receiver re-derives
exactly the sender's Commitment, and at index 5 both sides produce the same
derivation result. -/
theorem sender_receiver_symmetry_witness :
    Recipient.detect_notification exR exPair.1 = some exPair.2 ∧
    Sender.address exS exPair.2 5 =
      (Recipient.key_info exR exPair.2 5).map (fun x => x.1) :=
  ⟨(sender_receiver_symmetry exSeedR exSeedS 0 1 7 AddressType.p2wpkh exAcc exR
      exS exPair.1 exPair.2 rfl rfl (by norm_num) (by decide) rfl).1,
   ((sender_receiver_symmetry exSeedR exSeedS 0 1 7 AddressType.p2wpkh exAcc exR
      exS exPair.1 exPair.2 rfl rfl (by norm_num) (by decide) rfl).2 5).1⟩

end PrivPay
